import Mathlib

/-!
Verification of the audio-to-notes pipeline.

The development embeds, as Lean functions, the pieces of the program the
specification talks about:

* the marker-scanning loop and the run-building loop of
  `create_formatted_doc` (the emphasis parser and the document renderer),
* the `AudioProcessor` class (`recv` and `save_audio`), and
* the processing sequence of `main` (transcribe, then generate notes, then
  build the document, with the first failure aborting the rest).

Strings are modelled as `List Char`, audio sample data as `List Nat`
(byte sequences), and the WAV file written by `save_audio` as a record of
its header fields together with its PCM payload.
-/

/-- A parsed span: the `(content, is_bold)` pairs accumulated in the
`runs_to_add` list of `create_formatted_doc`. -/
abbrev Span := List Char × Bool

/-- Model of Python's `text.find("\x2a\x2a")`: the index of the first
occurrence of two adjacent asterisks, or `none` when there is none
(Python returns `-1`). -/
def findMarker : List Char → Option Nat
  | [] => none
  | [_] => none
  | a :: b :: rest =>
    if a = '*' ∧ b = '*' then some 0
    else (findMarker (b :: rest)).map (· + 1)

/-- The input with the marker characters removed: scanning left to right,
every (non-overlapping) occurrence of two adjacent asterisks is deleted.
This is the spec-side notion of "the original string with all marker
characters removed" against which the parser is compared. -/
def removeMarkers : List Char → List Char
  | [] => []
  | [c] => [c]
  | a :: b :: rest =>
    if a = '*' ∧ b = '*' then removeMarkers rest
    else a :: removeMarkers (b :: rest)

/-- The marker-scanning `while` loop of `create_formatted_doc`, with fuel to
make the recursion structural.  Each iteration finds the first marker `s`,
the next marker `e` after `s + 2`; if there is no closing marker the loop
breaks and the trailing `if text` emits the whole remainder unformatted;
otherwise it emits the prefix before `s` (only when `s > 0`), the emphasized
text strictly between the markers, and continues after the closing marker.
Each iteration consumes at least four characters, so `text.length` fuel
always suffices. -/
def scanAux : Nat → List Char → List Span
  | 0, text => if text = [] then [] else [(text, false)]
  | fuel + 1, text =>
    match findMarker text with
    | none => if text = [] then [] else [(text, false)]
    | some s =>
      match findMarker (text.drop (s + 2)) with
      | none => if text = [] then [] else [(text, false)]
      | some e =>
        (if 0 < s then [(text.take s, false)] else []) ++
          ((text.drop (s + 2)).take e, true) ::
            scanAux fuel (text.drop (s + 2 + e + 2))

/-- The emphasis parser: the marker-scanning loop of `create_formatted_doc`
run on the paragraph text, producing the `runs_to_add` span list. -/
def scanSpans (text : List Char) : List Span :=
  scanAux text.length text

/-- Whether the left-to-right marker scan pairs every opening marker with a
later closing marker: the hypothesis "every marker is part of a balanced
pair" of the round-trip property, phrased over the same greedy scan. -/
def balancedAux : Nat → List Char → Bool
  | 0, _ => true
  | fuel + 1, text =>
    match findMarker text with
    | none => true
    | some s =>
      match findMarker (text.drop (s + 2)) with
      | none => false
      | some e => balancedAux fuel (text.drop (s + 2 + e + 2))

/-- An input is balanced when the greedy scan never meets an unmatched
opening marker. -/
def balanced (text : List Char) : Bool :=
  balancedAux text.length text

/-- Concatenation of the span texts, in order. -/
def spansText (spans : List Span) : List Char :=
  (spans.map Prod.fst).flatten

/-- A document run as built by `create_formatted_doc`: text, bold flag and
underline flag. -/
structure Run where
  text : List Char
  bold : Bool
  underline : Bool
deriving DecidableEq

/-- The run-building loop of `create_formatted_doc`: for each
`(content, is_bold)` pair of `runs_to_add`, one run is added whose text is
the content and whose bold and underline flags are both `is_bold`.  The
result is the list of runs added by the loop, in order. -/
def addRuns : List Span → List Run
  | [] => []
  | (content, b) :: rest =>
    { text := content, bold := b, underline := b } :: addRuns rest

/-- The single paragraph of the produced document. -/
structure Paragraph where
  runs : List Run
deriving DecidableEq

/-- `create_formatted_doc`: parse the text into spans, then build one run
per span in the document's single paragraph. -/
def create_formatted_doc (text : List Char) : Paragraph :=
  { runs := addRuns (scanSpans text) }

/-- An incoming audio frame; `data` models `frame.to_ndarray()`, the
frame's sample data. -/
structure AudioFrame where
  data : List Nat
deriving DecidableEq

/-- The `AudioProcessor` state: the accumulated `frames` list and the
`recording` flag. -/
structure AudioProcessor where
  frames : List (List Nat)
  recording : Bool
deriving DecidableEq

/-- `AudioProcessor.recv`: when `recording` is set, append the frame's
sample data to `frames`; in every case return the incoming frame itself.
The method never assigns `recording`, and the returned frame is the input
frame unchanged. -/
def recv (p : AudioProcessor) (frame : AudioFrame) :
    AudioProcessor × AudioFrame :=
  if p.recording then
    ({ p with frames := p.frames ++ [frame.data] }, frame)
  else (p, frame)

/-- The WAV file written by `save_audio`: header fields set by
`setnchannels` / `setsampwidth` / `setframerate` plus the PCM payload
written by the `writeframes` loop. -/
structure WavFile where
  nchannels : Nat
  sampwidth : Nat
  framerate : Nat
  data : List Nat
deriving DecidableEq

/-- `AudioProcessor.save_audio`: when `frames` is empty return `False` and
write nothing; otherwise write a WAV file with one channel, two bytes per
sample, a 48000 rate, and as payload the concatenation of the frames'
bytes in arrival order, then return `True`.  The method never assigns
`self.frames` or `self.recording`, so the state component of the result is
the input state unchanged. -/
def save_audio (p : AudioProcessor) :
    AudioProcessor × Bool × Option WavFile :=
  if p.frames = [] then (p, false, none)
  else
    (p, true,
      some { nchannels := 1, sampwidth := 2, framerate := 48000,
             data := p.frames.flatten })

/-- The errors the processing sequence of `main` can end with, tagged by
which call raised. -/
inductive PipelineError where
  | transcriptionError (msg : List Char)
  | generationError (msg : List Char)
deriving DecidableEq

/-- The terminal outcome of one processing sequence. -/
inductive SessionState where
  | done (doc : Paragraph)
  | failed (e : PipelineError)
deriving DecidableEq

/-- The processing sequence of `main` after a recording stops:
`transcribe_audio`, then `generate_notes` on the transcript, then
`create_formatted_doc` on the notes; the first exception jumps to the
error handler and the remaining calls never run.  The collaborators are
passed in as fallible values (`Except`), and the second component records
whether `generate_notes` was invoked. -/
def runProcessing (transcription : Except (List Char) (List Char))
    (generation : List Char → Except (List Char) (List Char)) :
    SessionState × Bool :=
  match transcription with
  | .error e => (.failed (.transcriptionError e), false)
  | .ok text =>
    match generation text with
    | .error e => (.failed (.generationError e), true)
    | .ok notes => (.done (create_formatted_doc notes), true)

/-- A found marker lies within the list: two marker characters fit after
index `i`. -/
theorem findMarker_bound :
    ∀ (l : List Char) (i : Nat), findMarker l = some i → i + 2 ≤ l.length
  | [], i, h => by simp [findMarker] at h
  | [_], i, h => by simp [findMarker] at h
  | a :: b :: rest, i, h => by
    by_cases hab : a = '*' ∧ b = '*'
    · simp [findMarker, hab] at h
      simp [← h]
    · simp [findMarker, hab] at h
      obtain ⟨j, hj, hji⟩ := h
      have hlen := findMarker_bound (b :: rest) j hj
      simp at hlen ⊢
      omega

/-- A list with no marker is left untouched by `removeMarkers`. -/
theorem removeMarkers_of_none :
    ∀ l : List Char, findMarker l = none → removeMarkers l = l
  | [], _ => rfl
  | [_], _ => rfl
  | a :: b :: rest, h => by
    by_cases hab : a = '*' ∧ b = '*'
    · simp [findMarker, hab] at h
    · simp [findMarker, hab] at h
      simp [removeMarkers, hab, removeMarkers_of_none (b :: rest) h]

/-- `removeMarkers` splits at the first marker: the prefix before it is
kept verbatim and the scan continues after the two marker characters. -/
theorem removeMarkers_split :
    ∀ (l : List Char) (i : Nat), findMarker l = some i →
      removeMarkers l = l.take i ++ removeMarkers (l.drop (i + 2))
  | [], i, h => by simp [findMarker] at h
  | [_], i, h => by simp [findMarker] at h
  | a :: b :: rest, i, h => by
    by_cases hab : a = '*' ∧ b = '*'
    · simp [findMarker, hab] at h
      simp [removeMarkers, hab, ← h]
    · simp [findMarker, hab] at h
      obtain ⟨j, hj, hji⟩ := h
      subst hji
      have hrec := removeMarkers_split (b :: rest) j hj
      simp [removeMarkers, hab, hrec, List.take_succ_cons]

/-- Unfolding `scanAux` when no marker is found. -/
theorem scanAux_succ_none (fuel : Nat) (l : List Char)
    (hs : findMarker l = none) :
    scanAux (fuel + 1) l = if l = [] then [] else [(l, false)] := by
  simp [scanAux, hs]

/-- Unfolding `scanAux` when the first marker has no closing marker: the
loop breaks and the whole remainder is emitted unformatted. -/
theorem scanAux_succ_break (fuel : Nat) (l : List Char) (s : Nat)
    (hs : findMarker l = some s)
    (he : findMarker (l.drop (s + 2)) = none) :
    scanAux (fuel + 1) l = if l = [] then [] else [(l, false)] := by
  simp [scanAux, hs, he]

/-- Unfolding `scanAux` on a matched marker pair. -/
theorem scanAux_succ_pair (fuel : Nat) (l : List Char) (s e : Nat)
    (hs : findMarker l = some s)
    (he : findMarker (l.drop (s + 2)) = some e) :
    scanAux (fuel + 1) l =
      (if 0 < s then [(l.take s, false)] else []) ++
        ((l.drop (s + 2)).take e, true) ::
          scanAux fuel (l.drop (s + 2 + e + 2)) := by
  simp [scanAux, hs, he]

/-- Unfolding `balancedAux` when no marker is found. -/
theorem balancedAux_succ_none (fuel : Nat) (l : List Char)
    (hs : findMarker l = none) :
    balancedAux (fuel + 1) l = true := by
  simp [balancedAux, hs]

/-- Unfolding `balancedAux` on an unmatched opening marker. -/
theorem balancedAux_succ_break (fuel : Nat) (l : List Char) (s : Nat)
    (hs : findMarker l = some s)
    (he : findMarker (l.drop (s + 2)) = none) :
    balancedAux (fuel + 1) l = false := by
  simp [balancedAux, hs, he]

/-- Unfolding `balancedAux` on a matched marker pair. -/
theorem balancedAux_succ_pair (fuel : Nat) (l : List Char) (s e : Nat)
    (hs : findMarker l = some s)
    (he : findMarker (l.drop (s + 2)) = some e) :
    balancedAux (fuel + 1) l = balancedAux fuel (l.drop (s + 2 + e + 2)) := by
  simp [balancedAux, hs, he]

/-- The fuelled scan does not depend on the fuel once the fuel covers the
text length: each iteration consumes at least four characters. -/
theorem scanAux_congr :
    ∀ (f₁ f₂ : Nat) (l : List Char), l.length ≤ f₁ → l.length ≤ f₂ →
      scanAux f₁ l = scanAux f₂ l := by
  intro f₁
  induction f₁ with
  | zero =>
    intro f₂ l h₁ h₂
    have hl : l = [] := List.eq_nil_of_length_eq_zero (Nat.le_zero.mp h₁)
    subst hl
    cases f₂ with
    | zero => rfl
    | succ m =>
      rw [scanAux_succ_none m [] rfl]
      simp [scanAux]
  | succ k ih =>
    intro f₂ l h₁ h₂
    cases f₂ with
    | zero =>
      have hl : l = [] := List.eq_nil_of_length_eq_zero (Nat.le_zero.mp h₂)
      subst hl
      rw [scanAux_succ_none k [] rfl]
      simp [scanAux]
    | succ m =>
      cases hs : findMarker l with
      | none => rw [scanAux_succ_none k l hs, scanAux_succ_none m l hs]
      | some s =>
        cases he : findMarker (l.drop (s + 2)) with
        | none =>
          rw [scanAux_succ_break k l s hs he, scanAux_succ_break m l s hs he]
        | some e =>
          rw [scanAux_succ_pair k l s e hs he, scanAux_succ_pair m l s e hs he]
          have hd : (l.drop (s + 2 + e + 2)).length ≤ k ∧
              (l.drop (s + 2 + e + 2)).length ≤ m := by
            rw [List.length_drop]
            omega
          rw [ih m (l.drop (s + 2 + e + 2)) hd.1 hd.2]

/-- On balanced input the fuelled scan's spans concatenate to the
marker-stripped text. -/
theorem scanAux_concat :
    ∀ (fuel : Nat) (l : List Char), l.length ≤ fuel →
      balancedAux fuel l = true →
      spansText (scanAux fuel l) = removeMarkers l := by
  intro fuel
  induction fuel with
  | zero =>
    intro l h₁ _
    have hl : l = [] := List.eq_nil_of_length_eq_zero (Nat.le_zero.mp h₁)
    subst hl
    rfl
  | succ k ih =>
    intro l hlen hbal
    cases hs : findMarker l with
    | none =>
      rw [scanAux_succ_none k l hs, removeMarkers_of_none l hs]
      by_cases hl : l = []
      · simp [hl, spansText]
      · simp [hl, spansText]
    | some s =>
      cases he : findMarker (l.drop (s + 2)) with
      | none =>
        rw [balancedAux_succ_break k l s hs he] at hbal
        exact absurd hbal (by simp)
      | some e =>
        rw [scanAux_succ_pair k l s e hs he]
        rw [balancedAux_succ_pair k l s e hs he] at hbal
        have hlen2 : (l.drop (s + 2 + e + 2)).length ≤ k := by
          rw [List.length_drop]
          omega
        have hrec := ih (l.drop (s + 2 + e + 2)) hlen2 hbal
        rw [removeMarkers_split l s hs,
          removeMarkers_split (l.drop (s + 2)) e he, List.drop_drop]
        have hidx : s + 2 + (e + 2) = s + 2 + e + 2 := by omega
        rw [hidx, ← hrec]
        by_cases hpos : 0 < s
        · simp [spansText, hpos]
        · have hs0 : s = 0 := by omega
          subst hs0
          simp [spansText]

/-- Unfolding `scanSpans` on a matched marker pair: the prefix span (when
the prefix is nonempty), the emphasized span between the markers, and the
parse of the text after the closing marker. -/
theorem scanSpans_pair (text : List Char) (s e : Nat)
    (hs : findMarker text = some s)
    (he : findMarker (text.drop (s + 2)) = some e) :
    scanSpans text =
      (if 0 < s then [(text.take s, false)] else []) ++
        ((text.drop (s + 2)).take e, true) ::
          scanSpans (text.drop (s + 2 + e + 2)) := by
  have hb := findMarker_bound text s hs
  cases text with
  | nil => simp at hb
  | cons c cs =>
    show scanAux (c :: cs).length (c :: cs) = _
    rw [List.length_cons, scanAux_succ_pair cs.length (c :: cs) s e hs he]
    have hfix : scanAux cs.length ((c :: cs).drop (s + 2 + e + 2)) =
        scanSpans ((c :: cs).drop (s + 2 + e + 2)) := by
      apply scanAux_congr
      · rw [List.length_drop]
        simp only [List.length_cons]
        omega
      · exact le_rfl
    rw [hfix]

/-- C1: for every input whose markers are all paired under the
left-to-right scan, concatenating the texts of the parsed spans in order
yields the original text with the marker characters removed. -/
theorem parse_balanced_roundtrip (text : List Char)
    (hb : balanced text = true) :
    spansText (scanSpans text) = removeMarkers text :=
  scanAux_concat text.length text le_rfl hb

/-- Witness for the round-trip property at a concrete balanced input. -/
theorem parse_balanced_roundtrip_witness :
    balanced ['a', '*', '*', 'b', '*', '*', 'c'] = true ∧
    spansText (scanSpans ['a', '*', '*', 'b', '*', '*', 'c']) =
      removeMarkers ['a', '*', '*', 'b', '*', '*', 'c'] ∧
    removeMarkers ['a', '*', '*', 'b', '*', '*', 'c'] = ['a', 'b', 'c'] :=
  ⟨by decide, parse_balanced_roundtrip _ (by decide), by decide⟩

/-- C2: the run-building phase produces exactly one run per span, in the
same order, the run text equal to the span text and both the bold and the
underline flag equal to the span's emphasized flag; empty-text runs are
kept. -/
theorem render_one_run_per_span (spans : List Span) :
    (addRuns spans).length = spans.length ∧
    ∀ i : Nat,
      ((addRuns spans)[i]?).map Run.text = (spans[i]?).map Prod.fst ∧
      ((addRuns spans)[i]?).map Run.bold = (spans[i]?).map Prod.snd ∧
      ((addRuns spans)[i]?).map Run.underline = (spans[i]?).map Prod.snd := by
  induction spans with
  | nil => exact ⟨rfl, fun i => by simp [addRuns]⟩
  | cons sp rest ih =>
    obtain ⟨t, b⟩ := sp
    refine ⟨by simp [addRuns, ih.1], fun i => ?_⟩
    cases i with
    | zero => simp [addRuns]
    | succ j => simpa [addRuns] using ih.2 j

/-- C3 counterexample: a successful drain leaves the chunk list intact,
and a second drain without a new start succeeds again and returns the same
audio, instead of failing on an emptied buffer. -/
theorem save_audio_clear_counterexample :
    ((save_audio { frames := [[1, 2]], recording := false }).2.1 = true) ∧
    ((save_audio { frames := [[1, 2]], recording := false }).1.frames ≠ []) ∧
    ((save_audio
        (save_audio { frames := [[1, 2]], recording := false }).1).2.1 =
      true) ∧
    ((save_audio
        (save_audio { frames := [[1, 2]], recording := false }).1).2.2 =
      some { nchannels := 1, sampwidth := 2, framerate := 48000,
             data := [1, 2] }) := by
  decide

/-- C3 amended: after a successful drain the chunk list is left unchanged
(`save_audio` never clears it), so a subsequent drain without an
intervening start succeeds again and returns the same audio. -/
theorem save_audio_keeps_frames (p : AudioProcessor) (h : p.frames ≠ []) :
    (save_audio p).2.1 = true ∧
    (save_audio p).1 = p ∧
    save_audio (save_audio p).1 = save_audio p := by
  simp [save_audio, h]

/-- Witness for the amended drain claim at a one-chunk buffer. -/
theorem save_audio_keeps_frames_witness :
    (save_audio { frames := [[1, 2]], recording := true }).2.1 = true ∧
    (save_audio { frames := [[1, 2]], recording := true }).1 =
      { frames := [[1, 2]], recording := true } ∧
    save_audio (save_audio { frames := [[1, 2]], recording := true }).1 =
      save_audio { frames := [[1, 2]], recording := true } :=
  save_audio_keeps_frames { frames := [[1, 2]], recording := true }
    (by decide)

/-- C4: on an opening marker with no later closing marker the scan stops
and the whole remaining text, the unmatched marker included, is emitted as
one trailing non-emphasized span. -/
theorem parse_unterminated (text : List Char) (s : Nat)
    (hs : findMarker text = some s)
    (he : findMarker (text.drop (s + 2)) = none) :
    scanSpans text = [(text, false)] := by
  have hb := findMarker_bound text s hs
  cases text with
  | nil => simp at hb
  | cons c cs =>
    show scanAux (c :: cs).length (c :: cs) = _
    rw [List.length_cons, scanAux_succ_break cs.length (c :: cs) s hs he]
    simp

/-- Witness for the unterminated-marker claim at the spec's concrete
input. -/
theorem parse_unterminated_witness :
    scanSpans ['a', '*', '*', 'b'] = [(['a', '*', '*', 'b'], false)] :=
  parse_unterminated ['a', '*', '*', 'b'] 1 (by decide) (by decide)

/-- C5: with at least one accumulated chunk, drain succeeds and writes a
WAV with one channel, two-byte samples, a 48000 rate, and as PCM payload
the concatenation of the chunks' bytes in arrival order. -/
theorem save_audio_nonempty (p : AudioProcessor) (h : p.frames ≠ []) :
    save_audio p =
      (p, true,
        some { nchannels := 1, sampwidth := 2, framerate := 48000,
               data := p.frames.flatten }) := by
  simp [save_audio, h]

/-- Witness for the successful-drain claim at a two-chunk buffer. -/
theorem save_audio_nonempty_witness :
    save_audio { frames := [[1, 2], [3]], recording := true } =
      ({ frames := [[1, 2], [3]], recording := true }, true,
        some { nchannels := 1, sampwidth := 2, framerate := 48000,
               data := [1, 2, 3] }) := by
  have h := save_audio_nonempty { frames := [[1, 2], [3]], recording := true }
    (by decide)
  simpa using h

/-- C6: with zero accumulated chunks, drain fails: it returns the failure
result and writes no WAV, so it never reports success with empty audio. -/
theorem save_audio_empty (rec : Bool) :
    save_audio { frames := [], recording := rec } =
      ({ frames := [], recording := rec }, false, none) := by
  simp [save_audio]

/-- C7: when the transcription call fails, the session ends in the failed
state carrying the transcription error, and the note-generation call is
never invoked, whatever it would have returned. -/
theorem transcription_failure (e : List Char)
    (gen : List Char → Except (List Char) (List Char)) :
    runProcessing (Except.error e) gen =
      (SessionState.failed (PipelineError.transcriptionError e), false) :=
  rfl

/-- C8: `recv` leaves the whole processor state unchanged when the
recording flag is off, and appends exactly the frame's sample data at the
end of the chunk list, keeping the flag, when it is on. -/
theorem recv_accept (p : AudioProcessor) (f : AudioFrame) :
    (p.recording = false → (recv p f).1 = p) ∧
    (p.recording = true →
      (recv p f).1.frames = p.frames ++ [f.data] ∧
      (recv p f).1.recording = true) := by
  constructor
  · intro h
    simp [recv, h]
  · intro h
    simp [recv, h]

/-- Witness for the accept claim, one instance per flag value. -/
theorem recv_accept_witness :
    (recv { frames := [[7]], recording := false } { data := [9] }).1 =
      { frames := [[7]], recording := false } ∧
    ((recv { frames := [[7]], recording := true } { data := [9] }).1.frames =
        [[7]] ++ [[9]] ∧
      (recv { frames := [[7]], recording := true }
        { data := [9] }).1.recording = true) :=
  ⟨(recv_accept _ _).1 rfl, (recv_accept _ _).2 rfl⟩

/-- C9: a marker pair that closes immediately after it opens produces an
emphasized span with empty text, kept in place in the output. -/
theorem parse_empty_pair (text : List Char) (s : Nat)
    (hs : findMarker text = some s)
    (he : findMarker (text.drop (s + 2)) = some 0) :
    scanSpans text =
      (if 0 < s then [(text.take s, false)] else []) ++
        ([], true) :: scanSpans (text.drop (s + 2 + 0 + 2)) := by
  have h := scanSpans_pair text s 0 hs he
  simpa using h

/-- Witness for the empty-emphasis claim at the spec's concrete input. -/
theorem parse_empty_pair_witness :
    scanSpans ['*', '*', '*', '*'] = [(([] : List Char), true)] := by
  have h := parse_empty_pair ['*', '*', '*', '*'] 0 (by decide) (by decide)
  simpa [scanSpans, scanAux] using h

/-- C10: `recv` always returns the incoming frame itself, unchanged,
whatever the recording flag. -/
theorem recv_passthrough (p : AudioProcessor) (f : AudioFrame) :
    (recv p f).2 = f := by
  cases hp : p.recording <;> simp [recv, hp]
